import Mathlib

/-!
Verification of the provisioning helpers of the GHC25 GraphQL workshop
repository (helpers_env.py, helpers_appsync.py, helpers_ddb_pricing.py,
helpers_sns_sqs.py, helpers_pipeline_resolvers.py).

Python strings are modeled as `List Char`; character classes are expressed
through `Char.toNat` so that all reasoning is plain arithmetic on code
points (the repository only manipulates ASCII names).  Stateful AWS calls
are modeled by explicit state passing: the collection of existing cloud
resources is a list, a creation call appends to it, and every `ensure`
style function reports the descriptors of the creation calls it issued.
-/

/-- Equality of modeled call outcomes is decidable (used to evaluate the
embedding on concrete inputs). -/
instance {ε α : Type} [DecidableEq ε] [DecidableEq α] : DecidableEq (Except ε α) := fun x y =>
  match x, y with
  | Except.error e, Except.error f =>
    if h : e = f then isTrue (by rw [h])
    else isFalse (by intro hc; injection hc; contradiction)
  | Except.error _, Except.ok _ => isFalse (by intro hc; exact Except.noConfusion hc)
  | Except.ok _, Except.error _ => isFalse (by intro hc; exact Except.noConfusion hc)
  | Except.ok a, Except.ok b =>
    if h : a = b then isTrue (by rw [h])
    else isFalse (by intro hc; injection hc; contradiction)

/-! ## helpers_env.py -/

/-- Python `str.lower` restricted to ASCII: `A`..`Z` map 32 code points up. -/
def pyLower (c : Char) : Char :=
  if 65 ≤ c.toNat ∧ c.toNat ≤ 90 then Char.ofNat (c.toNat + 32) else c

/-- The whitespace characters stripped by Python `str.strip()` (ASCII part):
space, tab, newline, carriage return, vertical tab, form feed. -/
def isPySpace (c : Char) : Bool :=
  c.toNat = 32 || c.toNat = 9 || c.toNat = 10 || c.toNat = 13 ||
    c.toNat = 11 || c.toNat = 12

/-- The character class kept by `re.sub(r"[^a-z0-9-]", "", s)`:
lowercase ASCII letters, digits, hyphen. -/
def isAllowed (c : Char) : Bool :=
  (97 ≤ c.toNat && c.toNat ≤ 122) || (48 ≤ c.toNat && c.toNat ≤ 57) || c.toNat = 45

/-- Python `str.isalpha` restricted to ASCII letters. -/
def pyIsAlpha (c : Char) : Bool :=
  (65 ≤ c.toNat && c.toNat ≤ 90) || (97 ≤ c.toNat && c.toNat ≤ 122)

/-- Python `s.strip(chars)`: remove matching characters from both ends. -/
def stripEnds (p : Char → Bool) (l : List Char) : List Char :=
  (((l.dropWhile p).reverse).dropWhile p).reverse

/-- `re.sub(r"-+", "-", s)`: collapse every run of hyphens to one hyphen. -/
def collapseHyphens : List Char → List Char
  | [] => []
  | [c] => [c]
  | a :: b :: rest =>
    if a = '-' ∧ b = '-' then collapseHyphens (b :: rest)
    else a :: collapseHyphens (b :: rest)

/-- The first six lines of `sanitize_name` (everything before the
`u-` prefixing): lower, strip whitespace, spaces to hyphens, drop
disallowed characters, collapse hyphen runs, strip hyphens. -/
def sanitizeCore (name : List Char) : List Char :=
  let s1 := name.map pyLower
  let s2 := stripEnds isPySpace s1
  let s3 := s2.map (fun c => if c = ' ' then '-' else c)
  let s4 := s3.filter isAllowed
  let s5 := collapseHyphens s4
  stripEnds (fun c => c = '-') s5

/-- `not s or not s[0].isalpha()` negated: `s` is nonempty and its first
character is a letter. -/
def startsWithAlpha : List Char → Bool
  | [] => false
  | c :: _ => pyIsAlpha c

/-- `sanitize_name` from helpers_env.py. -/
def sanitize_name (name : List Char) : List Char :=
  let s := sanitizeCore name
  if startsWithAlpha s then s else 'u' :: '-' :: s

/-- No two consecutive hyphens. -/
def NoDouble (l : List Char) : Prop :=
  l.Chain' (fun a b => ¬(a = '-' ∧ b = '-'))

/-- `build_api_name` from helpers_env.py.  `pre` is the Python parameter
named "prefix" there (default "ghc25"); `max_len` defaults to 40.
Python `base[:-overflow]` is `take (base.length - overflow)` because the
branch guarantees `0 < overflow < len(base)`. -/
def build_api_name (display_name : List Char) (suffix : List Char)
    (pre : List Char) (max_len : Nat) : List Char × List Char :=
  let base := sanitize_name display_name
  let candidate := pre ++ '-' :: (base ++ '-' :: suffix)
  if candidate.length > max_len then
    let overflow := candidate.length - max_len
    let base2 :=
      if overflow < base.length then base.take (base.length - overflow)
      else base.take (max 1 (base.length - overflow))
    (pre ++ '-' :: (base2 ++ '-' :: suffix), base2)
  else
    (candidate, base)

/-- `True` exactly on the error branch of an `Except` value (a Python
function call that raised). -/
def raised {ε α : Type} : Except ε α → Bool
  | Except.error _ => true
  | Except.ok _ => false

/-- `validate_identifiers` from helpers_env.py.  Python `not s` on a string
is the emptiness test, so each argument is rejected when it is empty or
equals its sentinel placeholder. -/
def validate_identifiers (name_pfx : List Char) (birth_mmdd : List Char) :
    Except (List Char) Unit :=
  if name_pfx = [] ∨ name_pfx = "NAME".toList then
    Except.error "ERROR: Please replace NAME with the first 4 letters of your first name".toList
  else if birth_mmdd = [] ∨ birth_mmdd = "MMDD".toList then
    Except.error "ERROR: Please replace MMDD with your birth month and day".toList
  else
    Except.ok ()

/-! ## helpers_appsync.py -/

/-- The descriptor built by `create_graphql_api` in `ensure_api`: kwargs are
the name, `authenticationType="API_KEY"`, `xrayEnabled`, and an optional
`logConfig` (CloudWatch role with field log level "ERROR"). -/
structure GraphqlApi where
  name : List Char
  authenticationType : List Char
  xrayEnabled : Bool
  logRole : Option (List Char)
deriving Repr, DecidableEq

/-- The descriptor returned by the `create_graphql_api` call of `ensure_api`. -/
def mk_graphql_api (name : List Char) (logRole : Option (List Char))
    (xray : Bool) : GraphqlApi :=
  ⟨name, "API_KEY".toList, xray, logRole⟩

/-- `find_api_by_name`: walk the pages of `list_graphql_apis` (the
`nextToken` loop) and return the first API whose name equals `name`. -/
def find_api_by_name : List (List GraphqlApi) → List Char → Option GraphqlApi
  | [], _ => none
  | page :: rest, name =>
    match page.find? (fun a => a.name == name) with
    | some a => some a
    | none => find_api_by_name rest name

/-- The result of an ensure-style call: the returned descriptor together
with the descriptors of the creation calls the function issued. -/
structure Ensured (α : Type) where
  result : α
  created : List α
deriving Repr

/-- `ensure_api`: reuse the API found by name, otherwise issue one
`create_graphql_api` call and return its descriptor. -/
def ensure_api (pages : List (List GraphqlApi)) (name : List Char)
    (logRole : Option (List Char)) (xray : Bool) : Ensured GraphqlApi :=
  match find_api_by_name pages name with
  | some api => ⟨api, []⟩
  | none => ⟨mk_graphql_api name logRole xray, [mk_graphql_api name logRole xray]⟩

/-- The statuses `upload_schema` treats as terminal. -/
def schemaTerminal (st : List Char) : Bool :=
  st = "SUCCESS".toList || st = "FAILED".toList || st = "NOT_APPLICABLE".toList

/-- The polling loop of `upload_schema`: `status i` is what the i-th
`get_schema_creation_status` call reports and `details i` its details
field.  Returns the outcome (error = the `RuntimeError` message) and the
total seconds slept (`time.sleep(2)` after each non-terminal poll).
Falling off the end of `for _ in range(30)` is a normal return. -/
def schemaLoop (status : Nat → List Char) (details : Nat → List Char) :
    Nat → Nat → Except (List Char) Unit × Nat
  | _, 0 => (Except.ok (), 0)
  | i, n + 1 =>
    if schemaTerminal (status i) then
      if status i ≠ "SUCCESS".toList then
        (Except.error ("Schema status=".toList ++ status i ++ ": ".toList
          ++ (details i).take 400), 0)
      else
        (Except.ok (), 0)
    else
      ((schemaLoop status details (i + 1) n).fst,
        (schemaLoop status details (i + 1) n).snd + 2)

/-- `upload_schema` after `start_schema_creation`: poll up to 30 times. -/
def upload_schema (status : Nat → List Char) (details : Nat → List Char) :
    Except (List Char) Unit × Nat :=
  schemaLoop status details 0 30

/-- `ensure_api_key`: clamp `days` below 1 up to 1 and set the expiry to
now plus that many days plus two minutes (`timedelta(days=days, minutes=2)`
in epoch seconds).  `now` is the integral epoch timestamp of
`datetime.now(timezone.utc)`. -/
def ensure_api_key (now : Int) (days : Int) : Int :=
  let d := if days < 1 then 1 else days
  now + d * 86400 + 120

/-- Python `sep.split` on one character: `"a:b:c".split(":")`. -/
def splitOnChar (sep : Char) : List Char → List (List Char)
  | [] => [[]]
  | c :: rest =>
    let r := splitOnChar sep rest
    if c = sep then [] :: r
    else
      match r with
      | [] => [[c]]
      | h :: t => (c :: h) :: t

/-- An AppSync data source descriptor (the fields the repository sets). -/
structure DataSource where
  name : List Char
  dsType : List Char
  serviceRoleArn : Option (List Char)
  ddbTableName : Option (List Char)
  ddbRegion : Option (List Char)
  httpEndpoint : Option (List Char)
deriving Repr, DecidableEq

/-- The descriptor built by the `create_data_source` call of
`ensure_ddb_ds`: table name is `table_arn.split("/")[-1]` and region
`table_arn.split(":")[3]` (total on well-formed ARNs; `[]` stands for the
index error on malformed ones). -/
def mk_ddb_data_source (name table_arn role_arn : List Char) : DataSource :=
  ⟨name, "AMAZON_DYNAMODB".toList, some role_arn,
    some ((splitOnChar '/' table_arn).getLastD []),
    some ((splitOnChar ':' table_arn).getD 3 []), none⟩

/-- `ensure_ddb_ds`: reuse the data source found by name in
`list_data_sources`, otherwise issue one `create_data_source` call. -/
def ensure_ddb_ds (dataSources : List DataSource)
    (name table_arn role_arn : List Char) : Ensured DataSource :=
  match dataSources.find? (fun d => d.name == name) with
  | some d => ⟨d, []⟩
  | none => ⟨mk_ddb_data_source name table_arn role_arn,
      [mk_ddb_data_source name table_arn role_arn]⟩

/-- The descriptor built by the `create_data_source` call of `ensure_none_ds`. -/
def mk_none_data_source (name : List Char) : DataSource :=
  ⟨name, "NONE".toList, none, none, none, none⟩

/-- `ensure_none_ds` (default name "NoneDS"). -/
def ensure_none_ds (dataSources : List DataSource) (name : List Char) :
    Ensured DataSource :=
  match dataSources.find? (fun d => d.name == name) with
  | some d => ⟨d, []⟩
  | none => ⟨mk_none_data_source name, [mk_none_data_source name]⟩

/-- A resolver/function service fault: AppSync's `NotFoundException` or
any other exception (modeled by its message). -/
inductive AwsErr where
  | notFound
  | otherFault (msg : List Char)
deriving Repr, DecidableEq

/-- `upsert_js_resolver`: try `update_resolver`; on `NotFoundException`
issue `create_resolver`; any other exception propagates.  The call
outcomes are inputs (`updateResult`, `createResult`); the returned Bool
records whether the create call was issued. -/
def upsert_js_resolver (updateResult : Except AwsErr Unit)
    (createResult : Except AwsErr Unit) : Bool × Except AwsErr Unit :=
  match updateResult with
  | Except.ok _ => (false, Except.ok ())
  | Except.error AwsErr.notFound => (true, createResult)
  | Except.error e => (false, Except.error e)

/-! ## helpers_pipeline_resolvers.py -/

/-- `create_pipeline_resolver`: same update-then-create pattern as
`upsert_js_resolver`, with PIPELINE kind kwargs. -/
def create_pipeline_resolver (updateResult : Except AwsErr Unit)
    (createResult : Except AwsErr Unit) : Bool × Except AwsErr Unit :=
  match updateResult with
  | Except.ok _ => (false, Except.ok ())
  | Except.error AwsErr.notFound => (true, createResult)
  | Except.error e => (false, Except.error e)

/-- The `functionConfiguration` descriptor returned by
`update_function`/`create_function`. -/
structure FnConfig where
  functionId : List Char
  fnName : List Char
  dataSourceName : List Char
deriving Repr, DecidableEq

/-- `create_function`: try `update_function`; on `NotFoundException` issue
`create_function`; any other exception propagates.  Returns whether the
create call was issued and the resulting `functionConfiguration`. -/
def create_function (updateResult : Except AwsErr FnConfig)
    (createResult : Except AwsErr FnConfig) : Bool × Except AwsErr FnConfig :=
  match updateResult with
  | Except.ok c => (false, Except.ok c)
  | Except.error AwsErr.notFound => (true, createResult)
  | Except.error e => (false, Except.error e)

/-- The descriptor built by the `create_data_source` call of
`ensure_sns_ds`: an HTTP data source whose endpoint names the region
`topic_arn.split(":")[3]`. -/
def mk_http_sns_data_source (name topic_arn role_arn : List Char) : DataSource :=
  let region := (splitOnChar ':' topic_arn).getD 3 []
  ⟨name, "HTTP".toList, some role_arn, none, none,
    some ("https://sns.".toList ++ region ++ ".amazonaws.com/".toList)⟩

/-- `ensure_sns_ds`: reuse the data source found by name, otherwise issue
one `create_data_source` call. -/
def ensure_sns_ds (dataSources : List DataSource)
    (name topic_arn role_arn : List Char) : Ensured DataSource :=
  match dataSources.find? (fun d => d.name == name) with
  | some d => ⟨d, []⟩
  | none => ⟨mk_http_sns_data_source name topic_arn role_arn,
      [mk_http_sns_data_source name topic_arn role_arn]⟩

/-! ## helpers_ddb_pricing.py -/

/-- A DynamoDB table descriptor (the fields the repository sets). -/
structure DdbTable where
  tableName : List Char
  keyAttr : List Char
  billingMode : List Char
  sseEnabled : Bool
deriving Repr, DecidableEq

/-- `describe_table`: the table with the given name, or the
`ResourceNotFoundException` branch (`none`). -/
def describe_table (tables : List DdbTable) (name : List Char) : Option DdbTable :=
  tables.find? (fun t => t.tableName == name)

/-- The table built by the `create_table` call of `ensure_catalog_table`
(hash key "asin", on-demand billing, SSE on). -/
def mk_catalog_table (name : List Char) : DdbTable :=
  ⟨name, "asin".toList, "PAY_PER_REQUEST".toList, true⟩

/-- The table built by the `create_table` call of `ensure_cost_table`
(hash key "asinVendor"). -/
def mk_cost_table (name : List Char) : DdbTable :=
  ⟨name, "asinVendor".toList, "PAY_PER_REQUEST".toList, true⟩

/-- `ensure_catalog_table`: describe; on `ResourceNotFoundException`
create, wait for `table_exists`, and describe again on the grown state. -/
def ensure_catalog_table (tables : List DdbTable) (name : List Char) :
    Ensured DdbTable :=
  match describe_table tables name with
  | some t => ⟨t, []⟩
  | none =>
    ⟨(describe_table (tables ++ [mk_catalog_table name]) name).getD (mk_catalog_table name),
      [mk_catalog_table name]⟩

/-- `ensure_cost_table`: same shape as `ensure_catalog_table`. -/
def ensure_cost_table (tables : List DdbTable) (name : List Char) :
    Ensured DdbTable :=
  match describe_table tables name with
  | some t => ⟨t, []⟩
  | none =>
    ⟨(describe_table (tables ++ [mk_cost_table name]) name).getD (mk_cost_table name),
      [mk_cost_table name]⟩

/-! ## helpers_sns_sqs.py -/

/-- Is the second list a prefix of the first argument order
`isPfxOf needle hay`?  Python `hay.startswith(needle)` shape used by
`list_queues(QueueNamePrefix=...)`. -/
def isPfxOf : List Char → List Char → Bool
  | [], _ => true
  | _ :: _, [] => false
  | a :: na, b :: nb => a == b && isPfxOf na nb

/-- Python substring test `needle in hay`. -/
def containsSub : List Char → List Char → Bool
  | [], needle => isPfxOf needle []
  | c :: t, needle => isPfxOf needle (c :: t) || containsSub t needle

/-- `str(e).lower()` applied to an exception message. -/
def lowerList (l : List Char) : List Char := l.map pyLower

/-- An SNS topic: its name and its ARN (the ARN's last `:`-separated
component is the name). -/
structure SnsTopic where
  topicName : List Char
  topicArn : List Char
deriving Repr, DecidableEq

/-- The fallback lookup of `ensure_sns_topic`:
`next((t["TopicArn"] for t in topics if topic_name in t["TopicArn"]), None)` —
the first listed topic whose ARN contains the requested name as a
substring. -/
def sns_fallback_lookup (topics : List SnsTopic) (topic_name : List Char) :
    Option (List Char) :=
  (topics.find? (fun t => containsSub t.topicArn topic_name)).map SnsTopic.topicArn

/-- `ensure_sns_topic`: try `create_topic` (outcome is the input
`createResult`); on an exception whose lowered message contains
"already exists", fall back to the lookup; otherwise re-raise. -/
def ensure_sns_topic (topics : List SnsTopic)
    (createResult : Except (List Char) (List Char)) (api_name : List Char) :
    Except (List Char) (Option (List Char)) :=
  match createResult with
  | Except.ok arn => Except.ok (some arn)
  | Except.error e =>
    if containsSub (lowerList e) "already exists".toList then
      Except.ok (sns_fallback_lookup topics (api_name ++ "-price-changes".toList))
    else
      Except.error e

/-- An SQS queue: name, URL, ARN. -/
structure SqsQueue where
  queueName : List Char
  queueUrl : List Char
  queueArn : List Char
deriving Repr, DecidableEq

/-- The fallback lookup of `ensure_sqs_queue`:
`list_queues(QueueNamePrefix=queue_name)` lists the queues whose name
starts with `queue_name`; the code takes `QueueUrls[0]`. -/
def sqs_fallback_lookup (queues : List SqsQueue) (queue_name : List Char) :
    Option SqsQueue :=
  (queues.filter (fun q => isPfxOf queue_name q.queueName)).head?

/-- `ensure_sqs_queue`: try `create_queue`; on an exception whose lowered
message contains "already exists", fall back to the prefix listing (and
re-raise when it is empty); otherwise re-raise.  Returns (url, arn). -/
def ensure_sqs_queue (queues : List SqsQueue)
    (createResult : Except (List Char) SqsQueue) (api_name : List Char) :
    Except (List Char) (List Char × List Char) :=
  match createResult with
  | Except.ok q => Except.ok (q.queueUrl, q.queueArn)
  | Except.error e =>
    if containsSub (lowerList e) "already exists".toList then
      match sqs_fallback_lookup queues (api_name ++ "-price-processing".toList) with
      | some q => Except.ok (q.queueUrl, q.queueArn)
      | none => Except.error e
    else
      Except.error e

/-! ## Loop lemmas for upload_schema -/

/-- Step equation: a terminal SUCCESS poll returns normally. -/
theorem schemaLoop_succ_ok (status details : Nat → List Char) (i n : Nat)
    (h1 : schemaTerminal (status i) = true) (h2 : status i = "SUCCESS".toList) :
    schemaLoop status details i (n + 1) = (Except.ok (), 0) := by
  simp only [schemaLoop]
  rw [if_pos h1, if_neg (not_not_intro h2)]

/-- Step equation: a terminal non-SUCCESS poll raises. -/
theorem schemaLoop_succ_err (status details : Nat → List Char) (i n : Nat)
    (h1 : schemaTerminal (status i) = true) (h2 : status i ≠ "SUCCESS".toList) :
    schemaLoop status details i (n + 1)
      = (Except.error ("Schema status=".toList ++ status i ++ ": ".toList
          ++ (details i).take 400), 0) := by
  simp only [schemaLoop]
  rw [if_pos h1, if_pos h2]

/-- Step equation: a non-terminal poll sleeps two seconds and retries. -/
theorem schemaLoop_succ_step (status details : Nat → List Char) (i n : Nat)
    (h1 : schemaTerminal (status i) = false) :
    schemaLoop status details i (n + 1)
      = ((schemaLoop status details (i + 1) n).fst,
          (schemaLoop status details (i + 1) n).snd + 2) := by
  simp only [schemaLoop]
  rw [if_neg (by simp [h1])]

/-- If every poll up to the fuel bound is non-terminal, the loop falls off
the end: a normal return after two seconds of sleep per poll. -/
theorem schemaLoop_all_nonterminal (status details : Nat → List Char) :
    ∀ (n i : Nat), (∀ k, k < n → schemaTerminal (status (i + k)) = false) →
      schemaLoop status details i n = (Except.ok (), 2 * n) := by
  intro n
  induction n with
  | zero => intro i _; rfl
  | succ n ih =>
    intro i h
    have h0 : schemaTerminal (status i) = false := by
      have := h 0 (by omega)
      simpa using this
    have hrest : schemaLoop status details (i + 1) n = (Except.ok (), 2 * n) := by
      apply ih
      intro k hk
      have := h (k + 1) (by omega)
      rwa [show i + (k + 1) = i + 1 + k by omega] at this
    rw [schemaLoop_succ_step status details i n h0, hrest]
    have : 2 * n + 2 = 2 * (n + 1) := by omega
    rw [this]

/-- The loop raises exactly when some poll within the fuel bound is the
first terminal one and reports a status other than SUCCESS. -/
theorem schemaLoop_error_iff (status details : Nat → List Char) :
    ∀ (n i : Nat), raised (schemaLoop status details i n).fst = true ↔
      ∃ k, k < n ∧ (∀ j, j < k → schemaTerminal (status (i + j)) = false) ∧
        schemaTerminal (status (i + k)) = true ∧ status (i + k) ≠ "SUCCESS".toList := by
  intro n
  induction n with
  | zero =>
    intro i
    constructor
    · intro h
      exact absurd h (by simp [schemaLoop, raised])
    · rintro ⟨k, hk, -⟩
      omega
  | succ n ih =>
    intro i
    by_cases hT : schemaTerminal (status i) = true
    · by_cases hS : status i = "SUCCESS".toList
      · rw [schemaLoop_succ_ok status details i n hT hS]
        constructor
        · intro h
          exact absurd h (by simp [raised])
        · rintro ⟨k, hk, hb, ht, hn⟩
          rcases k with - | k
          · exact absurd hS (by simpa using hn)
          · have := hb 0 (by omega)
            simp [hT] at this
      · rw [schemaLoop_succ_err status details i n hT hS]
        constructor
        · intro _
          exact ⟨0, by omega, by intro j hj; omega, by simpa using hT, by simpa using hS⟩
        · intro _
          simp [raised]
    · have hT' : schemaTerminal (status i) = false := by simpa using hT
      rw [schemaLoop_succ_step status details i n hT']
      show raised (schemaLoop status details (i + 1) n).fst = true ↔ _
      rw [ih (i + 1)]
      constructor
      · rintro ⟨k, hk, hb, ht, hn⟩
        refine ⟨k + 1, by omega, ?_, ?_, ?_⟩
        · intro j hj
          rcases j with - | j
          · simpa using hT'
          · have := hb j (by omega)
            rwa [show i + 1 + j = i + (j + 1) by omega] at this
        · rwa [show i + 1 + k = i + (k + 1) by omega] at ht
        · rwa [show i + 1 + k = i + (k + 1) by omega] at hn
      · rintro ⟨k, hk, hb, ht, hn⟩
        rcases k with - | k
        · simp [hT'] at ht
        · refine ⟨k, by omega, ?_, ?_, ?_⟩
          · intro j hj
            have := hb (j + 1) (by omega)
            rwa [show i + (j + 1) = i + 1 + j by omega] at this
          · rwa [show i + (k + 1) = i + 1 + k by omega] at ht
          · rwa [show i + (k + 1) = i + 1 + k by omega] at hn

/-- When the first terminal poll is attempt `k` (within the fuel), the
loop has slept exactly `2 * k` seconds before stopping. -/
theorem schemaLoop_sleep (status details : Nat → List Char) :
    ∀ (n i k : Nat), k < n →
      (∀ j, j < k → schemaTerminal (status (i + j)) = false) →
      schemaTerminal (status (i + k)) = true →
      (schemaLoop status details i n).snd = 2 * k := by
  intro n
  induction n with
  | zero => intro i k hk; omega
  | succ n ih =>
    intro i k hk hb ht
    rcases k with - | k
    · have ht' : schemaTerminal (status i) = true := by simpa using ht
      by_cases hS : status i = "SUCCESS".toList
      · rw [schemaLoop_succ_ok status details i n ht' hS]
      · rw [schemaLoop_succ_err status details i n ht' hS]
    · have hT' : schemaTerminal (status i) = false := by
        have := hb 0 (by omega)
        simpa using this
      rw [schemaLoop_succ_step status details i n hT']
      have hrec : (schemaLoop status details (i + 1) n).snd = 2 * k := by
        apply ih (i + 1) k (by omega)
        · intro j hj
          have := hb (j + 1) (by omega)
          rwa [show i + (j + 1) = i + 1 + j by omega] at this
        · rwa [show i + (k + 1) = i + 1 + k by omega] at ht
      show (schemaLoop status details (i + 1) n).snd + 2 = 2 * (k + 1)
      omega

/-! ## Claim theorems: schema upload (C3, C10) -/

/-- C3 (amended): upload_schema polls the status endpoint up to 30 times
and raises exactly when some poll within those 30 attempts is the first
terminal one (status SUCCESS, FAILED, or NOT_APPLICABLE) and its status is
not SUCCESS — so a terminal NOT_APPLICABLE raises like FAILED; moreover
each non-terminal poll is followed by a two-second sleep, so stopping at
attempt k happens after exactly 2·k seconds of sleeping. -/
theorem C3_upload_schema_raises_iff_terminal_non_success :
    ∀ (status details : Nat → List Char),
      (raised (upload_schema status details).fst = true ↔
        ∃ k, k < 30 ∧ (∀ j, j < k → schemaTerminal (status j) = false) ∧
          schemaTerminal (status k) = true ∧ status k ≠ "SUCCESS".toList) ∧
      (∀ k, k < 30 → (∀ j, j < k → schemaTerminal (status j) = false) →
        schemaTerminal (status k) = true →
        (upload_schema status details).snd = 2 * k) := by
  intro status details
  constructor
  · have h := schemaLoop_error_iff status details 30 0
    simpa [upload_schema] using h
  · intro k hk hb ht
    have h := schemaLoop_sleep status details 30 0 k hk (by simpa using hb) (by simpa using ht)
    simpa [upload_schema] using h

/-- C3 counterexample: on a schema whose creation status reports the
terminal status NOT_APPLICABLE at the first poll, upload_schema raises —
the claim states that NOT_APPLICABLE is treated as success and does not
raise. -/
theorem C3_counterexample_not_applicable_raises :
    raised (upload_schema (fun _ => "NOT_APPLICABLE".toList) (fun _ => [])).fst = true := by
  decide

/-- C10: if all 30 polls observe a non-terminal status, upload_schema
falls off the polling loop and returns normally — the same `Except.ok ()`
outcome a successful schema creation produces, so the caller gets no
indication that compilation never completed. -/
theorem C10_upload_schema_timeout_returns_normally :
    ∀ (status details : Nat → List Char),
      (∀ k, k < 30 → schemaTerminal (status k) = false) →
      (upload_schema status details).fst = Except.ok () := by
  intro status details h
  have := schemaLoop_all_nonterminal status details 30 0 (by simpa using h)
  simp [upload_schema, this]

/-- C10 witness: a status stuck at "PROCESSING" for all 30 attempts. -/
theorem C10_witness_processing_forever :
    (upload_schema (fun _ => "PROCESSING".toList) (fun _ => [])).fst = Except.ok () :=
  C10_upload_schema_timeout_returns_normally
    (fun _ => "PROCESSING".toList) (fun _ => [])
    (by intro k _; show schemaTerminal "PROCESSING".toList = false; decide)

/-! ## Claim theorems: naming and identifiers (C7, C9) -/

/-- C7 (amended): validate_identifiers raises exactly when the first
argument is empty or the sentinel "NAME", or the second argument is empty
or the sentinel "MMDD" (Python `not s` also rejects the empty string); it
succeeds on every other pair. -/
theorem C7_validate_identifiers_raises_iff :
    ∀ a b : List Char,
      raised (validate_identifiers a b) = true ↔
        a = [] ∨ a = "NAME".toList ∨ b = [] ∨ b = "MMDD".toList := by
  intro a b
  unfold validate_identifiers
  by_cases h1 : a = [] ∨ a = "NAME".toList
  · rw [if_pos h1]
    simp only [raised, true_iff]
    tauto
  · rw [if_neg h1]
    by_cases h2 : b = [] ∨ b = "MMDD".toList
    · rw [if_pos h2]
      simp only [raised, true_iff]
      tauto
    · rw [if_neg h2]
      simp only [raised]
      constructor
      · intro hc
        exact absurd hc (by simp)
      · intro hor
        tauto

/-- C7 counterexample: an empty first argument raises although it equals
neither sentinel — the claim says only the sentinel values raise. -/
theorem C7_counterexample_empty_first_argument :
    raised (validate_identifiers [] "0315".toList) = true ∧
      ([] : List Char) ≠ "NAME".toList ∧ "0315".toList ≠ "MMDD".toList := by
  decide

/-- C9: ensure_api_key clamps the validity to at least one day (a `days`
below 1 is treated as 1) and the expiry is now plus the clamped number of
days plus a two-minute buffer; in particular the expiry is always at least
one day and two minutes in the future. -/
theorem C9_api_key_clamps_days_and_buffers :
    ∀ now days : Int,
      ensure_api_key now days = now + max days 1 * 86400 + 120 ∧
      (days < 1 → ensure_api_key now days = ensure_api_key now 1) ∧
      now + 86400 + 120 ≤ ensure_api_key now days := by
  intro now days
  unfold ensure_api_key
  by_cases h : days < 1
  · simp only [if_pos h]
    refine ⟨?_, ?_, ?_⟩ <;> omega
  · simp only [if_neg h]
    refine ⟨?_, ?_, ?_⟩
    · have : max days 1 = days := by omega
      rw [this]
    · intro hc
      exact absurd hc h
    · have : 1 ≤ days := by omega
      nlinarith

/-! ## Claim theorems: update-then-create resolver attachment (C8) -/

/-- C8: upsert_js_resolver, create_pipeline_resolver and create_function
issue the create call exactly when the update call fails with the
not-found signal; when update succeeds no create is issued and the update
result is returned; a not-found update makes the outcome exactly the
create call's outcome (so any create fault propagates unchanged); any
other update fault propagates unchanged. -/
theorem C8_update_then_create_fallback :
    ∀ (u c : Except AwsErr Unit) (uf cf : Except AwsErr FnConfig),
      (((upsert_js_resolver u c).fst = true ↔ u = Except.error AwsErr.notFound) ∧
        (u = Except.error AwsErr.notFound → (upsert_js_resolver u c).snd = c) ∧
        (∀ m, u = Except.error (AwsErr.otherFault m) →
          (upsert_js_resolver u c).snd = Except.error (AwsErr.otherFault m)) ∧
        (u = Except.ok () → (upsert_js_resolver u c).snd = Except.ok ())) ∧
      (((create_pipeline_resolver u c).fst = true ↔ u = Except.error AwsErr.notFound) ∧
        (u = Except.error AwsErr.notFound → (create_pipeline_resolver u c).snd = c) ∧
        (∀ m, u = Except.error (AwsErr.otherFault m) →
          (create_pipeline_resolver u c).snd = Except.error (AwsErr.otherFault m)) ∧
        (u = Except.ok () → (create_pipeline_resolver u c).snd = Except.ok ())) ∧
      (((create_function uf cf).fst = true ↔ uf = Except.error AwsErr.notFound) ∧
        (uf = Except.error AwsErr.notFound → (create_function uf cf).snd = cf) ∧
        (∀ m, uf = Except.error (AwsErr.otherFault m) →
          (create_function uf cf).snd = Except.error (AwsErr.otherFault m)) ∧
        (∀ r, uf = Except.ok r → (create_function uf cf).snd = Except.ok r)) := by
  intro u c uf cf
  refine ⟨?_, ?_, ?_⟩
  · rcases u with e | v
    · cases e <;> simp [upsert_js_resolver]
    · simp [upsert_js_resolver]
  · rcases u with e | v
    · cases e <;> simp [create_pipeline_resolver]
    · simp [create_pipeline_resolver]
  · rcases uf with e | v
    · cases e <;> simp [create_function]
    · simp [create_function]

/-! ## Lookup lemmas for the ensure-style provisioners -/

/-- A linear name search finds nothing when no listed resource bears the
requested name. -/
theorem findByName_eq_none {α : Type} (f : α → List Char) (l : List α) (nm : List Char)
    (h : ∀ d ∈ l, f d ≠ nm) : l.find? (fun x => f x == nm) = none := by
  rw [List.find?_eq_none]
  intro d hd
  simpa using h d hd

/-- A linear name search over a list holding the requested name returns a
listed resource bearing exactly that name. -/
theorem findByName_present {α : Type} (f : α → List Char) (l : List α) (nm : List Char)
    (h : ∃ d ∈ l, f d = nm) :
    ∃ d, l.find? (fun x => f x == nm) = some d ∧ d ∈ l ∧ f d = nm := by
  rcases h with ⟨d0, hd0, hn0⟩
  have hsome : (l.find? (fun x => f x == nm)).isSome := by
    rw [List.find?_isSome]
    exact ⟨d0, hd0, by simp [hn0]⟩
  rcases hf : l.find? (fun x => f x == nm) with - | d
  · rw [hf] at hsome
    simp at hsome
  · refine ⟨d, rfl, List.mem_of_find?_eq_some hf, ?_⟩
    have := List.find?_some hf
    simpa using this

/-- The paginated search returns nothing when no page holds the name. -/
theorem find_api_by_name_eq_none (pages : List (List GraphqlApi)) (nm : List Char)
    (h : ∀ page ∈ pages, ∀ a ∈ page, a.name ≠ nm) :
    find_api_by_name pages nm = none := by
  induction pages with
  | nil => rfl
  | cons page rest ih =>
    have hfind : page.find? (fun x => x.name == nm) = none :=
      findByName_eq_none GraphqlApi.name page nm (fun a ha => h page (by simp) a ha)
    unfold find_api_by_name
    rw [hfind]
    exact ih (fun p hp a ha => h p (by simp [hp]) a ha)

/-- Whatever the paginated search returns was listed, with exactly the
requested name. -/
theorem find_api_by_name_sound (pages : List (List GraphqlApi)) (nm : List Char)
    (a : GraphqlApi) (h : find_api_by_name pages nm = some a) :
    (∃ page ∈ pages, a ∈ page) ∧ a.name = nm := by
  induction pages with
  | nil => exact absurd h (by simp [find_api_by_name])
  | cons page rest ih =>
    unfold find_api_by_name at h
    rcases hf : page.find? (fun x => x.name == nm) with - | b
    · rw [hf] at h
      rcases ih h with ⟨⟨p, hp, hap⟩, hn⟩
      exact ⟨⟨p, by simp [hp], hap⟩, hn⟩
    · rw [hf] at h
      have h' : some b = some a := h
      have hba : b = a := by injection h'
      subst hba
      refine ⟨⟨page, by simp, List.mem_of_find?_eq_some hf⟩, ?_⟩
      have := List.find?_some hf
      simpa using this

/-- The paginated search succeeds when some page holds the name. -/
theorem find_api_by_name_isSome (pages : List (List GraphqlApi)) (nm : List Char)
    (h : ∃ page ∈ pages, ∃ a ∈ page, a.name = nm) :
    (find_api_by_name pages nm).isSome = true := by
  induction pages with
  | nil =>
    rcases h with ⟨p, hp, -⟩
    simp at hp
  | cons page rest ih =>
    unfold find_api_by_name
    rcases hf : page.find? (fun x => x.name == nm) with - | b
    · rw [hf]
      rcases h with ⟨p, hp, a, ha, hn⟩
      rcases List.mem_cons.mp hp with rfl | hp'
      · have hsome : (p.find? (fun x => x.name == nm)).isSome := by
          rw [List.find?_isSome]
          exact ⟨a, ha, by simp [hn]⟩
        rw [hf] at hsome
        simp at hsome
      · exact ih ⟨p, hp', a, ha, hn⟩
    · rw [hf]
      rfl

/-- After creating the missing table, describing it on the grown account
state yields exactly the created table. -/
theorem describe_table_create_found (tables : List DdbTable) (nm : List Char)
    (t : DdbTable) (hnm : t.tableName = nm) (hnone : describe_table tables nm = none) :
    describe_table (tables ++ [t]) nm = some t := by
  unfold describe_table at hnone ⊢
  rw [List.find?_append, hnone]
  simp [hnm]

/-! ## Claim theorems: ensure-style provisioning (C1) and lookups (C2) -/

/-- C1: each ensure-style provisioner (ensure_api, ensure_ddb_ds,
ensure_none_ds, ensure_sns_ds, ensure_catalog_table, ensure_cost_table)
issues exactly one creation call and returns that call's descriptor when
no listed resource bears the requested name, and issues zero creation
calls and returns an existing listed descriptor with that name (unchanged)
when one does. -/
theorem C1_ensure_creates_once_or_reuses :
    (∀ (pages : List (List GraphqlApi)) (nm : List Char)
        (lr : Option (List Char)) (xr : Bool),
      ((∀ page ∈ pages, ∀ a ∈ page, a.name ≠ nm) →
        ensure_api pages nm lr xr
          = ⟨mk_graphql_api nm lr xr, [mk_graphql_api nm lr xr]⟩) ∧
      ((∃ page ∈ pages, ∃ a ∈ page, a.name = nm) →
        (ensure_api pages nm lr xr).created = [] ∧
        (∃ page ∈ pages, (ensure_api pages nm lr xr).result ∈ page) ∧
        (ensure_api pages nm lr xr).result.name = nm)) ∧
    (∀ (ds : List DataSource) (nm ta ra : List Char),
      ((∀ d ∈ ds, d.name ≠ nm) →
        ensure_ddb_ds ds nm ta ra
          = ⟨mk_ddb_data_source nm ta ra, [mk_ddb_data_source nm ta ra]⟩) ∧
      ((∃ d ∈ ds, d.name = nm) →
        (ensure_ddb_ds ds nm ta ra).created = [] ∧
        (ensure_ddb_ds ds nm ta ra).result ∈ ds ∧
        (ensure_ddb_ds ds nm ta ra).result.name = nm)) ∧
    (∀ (ds : List DataSource) (nm : List Char),
      ((∀ d ∈ ds, d.name ≠ nm) →
        ensure_none_ds ds nm
          = ⟨mk_none_data_source nm, [mk_none_data_source nm]⟩) ∧
      ((∃ d ∈ ds, d.name = nm) →
        (ensure_none_ds ds nm).created = [] ∧
        (ensure_none_ds ds nm).result ∈ ds ∧
        (ensure_none_ds ds nm).result.name = nm)) ∧
    (∀ (ds : List DataSource) (nm ta ra : List Char),
      ((∀ d ∈ ds, d.name ≠ nm) →
        ensure_sns_ds ds nm ta ra
          = ⟨mk_http_sns_data_source nm ta ra, [mk_http_sns_data_source nm ta ra]⟩) ∧
      ((∃ d ∈ ds, d.name = nm) →
        (ensure_sns_ds ds nm ta ra).created = [] ∧
        (ensure_sns_ds ds nm ta ra).result ∈ ds ∧
        (ensure_sns_ds ds nm ta ra).result.name = nm)) ∧
    (∀ (tables : List DdbTable) (nm : List Char),
      ((∀ t ∈ tables, t.tableName ≠ nm) →
        ensure_catalog_table tables nm
          = ⟨mk_catalog_table nm, [mk_catalog_table nm]⟩) ∧
      ((∃ t ∈ tables, t.tableName = nm) →
        (ensure_catalog_table tables nm).created = [] ∧
        (ensure_catalog_table tables nm).result ∈ tables ∧
        (ensure_catalog_table tables nm).result.tableName = nm)) ∧
    (∀ (tables : List DdbTable) (nm : List Char),
      ((∀ t ∈ tables, t.tableName ≠ nm) →
        ensure_cost_table tables nm
          = ⟨mk_cost_table nm, [mk_cost_table nm]⟩) ∧
      ((∃ t ∈ tables, t.tableName = nm) →
        (ensure_cost_table tables nm).created = [] ∧
        (ensure_cost_table tables nm).result ∈ tables ∧
        (ensure_cost_table tables nm).result.tableName = nm)) := by
  refine ⟨?_, ?_, ?_, ?_, ?_, ?_⟩
  · intro pages nm lr xr
    constructor
    · intro h
      have hnone := find_api_by_name_eq_none pages nm h
      unfold ensure_api
      rw [hnone]
    · intro h
      have hsome := find_api_by_name_isSome pages nm h
      rcases hf : find_api_by_name pages nm with - | a
      · rw [hf] at hsome
        simp at hsome
      · rcases find_api_by_name_sound pages nm a hf with ⟨⟨p, hp, hap⟩, hn⟩
        unfold ensure_api
        rw [hf]
        exact ⟨rfl, ⟨p, hp, hap⟩, hn⟩
  · intro ds nm ta ra
    constructor
    · intro h
      have hnone := findByName_eq_none DataSource.name ds nm h
      unfold ensure_ddb_ds
      rw [hnone]
    · intro h
      rcases findByName_present DataSource.name ds nm h with ⟨d, hf, hmem, hname⟩
      unfold ensure_ddb_ds
      rw [hf]
      exact ⟨rfl, hmem, hname⟩
  · intro ds nm
    constructor
    · intro h
      have hnone := findByName_eq_none DataSource.name ds nm h
      unfold ensure_none_ds
      rw [hnone]
    · intro h
      rcases findByName_present DataSource.name ds nm h with ⟨d, hf, hmem, hname⟩
      unfold ensure_none_ds
      rw [hf]
      exact ⟨rfl, hmem, hname⟩
  · intro ds nm ta ra
    constructor
    · intro h
      have hnone := findByName_eq_none DataSource.name ds nm h
      unfold ensure_sns_ds
      rw [hnone]
    · intro h
      rcases findByName_present DataSource.name ds nm h with ⟨d, hf, hmem, hname⟩
      unfold ensure_sns_ds
      rw [hf]
      exact ⟨rfl, hmem, hname⟩
  · intro tables nm
    constructor
    · intro h
      have hnone : describe_table tables nm = none :=
        findByName_eq_none DdbTable.tableName tables nm h
      have hfound := describe_table_create_found tables nm (mk_catalog_table nm) rfl hnone
      unfold ensure_catalog_table
      rw [hnone, hfound]
      rfl
    · intro h
      rcases findByName_present DdbTable.tableName tables nm h with ⟨t, hf, hmem, hname⟩
      have hf' : describe_table tables nm = some t := hf
      unfold ensure_catalog_table
      rw [hf']
      exact ⟨rfl, hmem, hname⟩
  · intro tables nm
    constructor
    · intro h
      have hnone : describe_table tables nm = none :=
        findByName_eq_none DdbTable.tableName tables nm h
      have hfound := describe_table_create_found tables nm (mk_cost_table nm) rfl hnone
      unfold ensure_cost_table
      rw [hnone, hfound]
      rfl
    · intro h
      rcases findByName_present DdbTable.tableName tables nm h with ⟨t, hf, hmem, hname⟩
      have hf' : describe_table tables nm = some t := hf
      unfold ensure_cost_table
      rw [hf']
      exact ⟨rfl, hmem, hname⟩

/-- C2 (amended): find_api_by_name matches by exact name equality across
all pages (sound and complete); but the already-exists fallback lookups
match more loosely: ensure_sns_topic's fallback returns the first topic
whose ARN merely contains the requested topic name as a substring, and
ensure_sqs_queue's fallback returns a queue whose name merely starts with
the requested queue name. -/
theorem C2_lookup_matching_discipline :
    (∀ (pages : List (List GraphqlApi)) (nm : List Char) (a : GraphqlApi),
      find_api_by_name pages nm = some a → a.name = nm) ∧
    (∀ (pages : List (List GraphqlApi)) (nm : List Char),
      (∃ page ∈ pages, ∃ a ∈ page, a.name = nm) →
      (find_api_by_name pages nm).isSome = true) ∧
    (∀ (topics : List SnsTopic) (nm arn : List Char),
      sns_fallback_lookup topics nm = some arn →
      ∃ t ∈ topics, t.topicArn = arn ∧ containsSub arn nm = true) ∧
    (∀ (queues : List SqsQueue) (nm : List Char) (q : SqsQueue),
      sqs_fallback_lookup queues nm = some q →
      q ∈ queues ∧ isPfxOf nm q.queueName = true) := by
  refine ⟨?_, ?_, ?_, ?_⟩
  · intro pages nm a h
    exact (find_api_by_name_sound pages nm a h).2
  · intro pages nm h
    exact find_api_by_name_isSome pages nm h
  · intro topics nm arn h
    unfold sns_fallback_lookup at h
    rcases hf : topics.find? (fun t => containsSub t.topicArn nm) with - | t
    · rw [hf] at h
      simp at h
    · rw [hf] at h
      simp at h
      refine ⟨t, List.mem_of_find?_eq_some hf, h, ?_⟩
      rw [← h]
      have := List.find?_some hf
      simpa using this
  · intro queues nm q h
    unfold sqs_fallback_lookup at h
    rcases hfil : queues.filter (fun x => isPfxOf nm x.queueName) with - | ⟨x, xs⟩
    · rw [hfil] at h
      simp at h
    · rw [hfil] at h
      simp only [List.head?_cons, Option.some_inj] at h
      subst h
      have hx : x ∈ queues.filter (fun y => isPfxOf nm y.queueName) := by
        rw [hfil]
        exact List.mem_cons_self x xs
      have := List.mem_filter.mp hx
      exact ⟨this.1, this.2⟩

/-- C2 counterexample: the already-exists fallback of ensure_sns_topic
returns a topic whose name is "a-price-changes-old" when the requested
topic name is "a-price-changes" — a resource whose name does not equal
the requested name exactly. -/
theorem C2_counterexample_sns_fallback_substring :
    sns_fallback_lookup
        [⟨"a-price-changes-old".toList, "arn:aws:sns:us-east-1:1:a-price-changes-old".toList⟩]
        "a-price-changes".toList
      = some "arn:aws:sns:us-east-1:1:a-price-changes-old".toList ∧
      "a-price-changes-old".toList ≠ "a-price-changes".toList := by
  decide

/-! ## Lemmas about sanitize_name -/

/-- An allowed character is already lowercase: pyLower fixes it. -/
theorem pyLower_fix_of_allowed {c : Char} (h : isAllowed c = true) : pyLower c = c := by
  unfold pyLower
  rw [if_neg]
  unfold isAllowed at h
  simp only [Bool.or_eq_true, Bool.and_eq_true, decide_eq_true_eq] at h
  omega

/-- An allowed character is not Python whitespace. -/
theorem isPySpace_false_of_allowed {c : Char} (h : isAllowed c = true) :
    isPySpace c = false := by
  unfold isAllowed at h
  unfold isPySpace
  simp only [Bool.or_eq_true, Bool.and_eq_true, decide_eq_true_eq] at h
  simp only [Bool.or_eq_false_iff, decide_eq_false_iff_not]
  omega

/-- An allowed character is not a space, so the space-to-hyphen
substitution fixes it. -/
theorem space_subst_fix_of_allowed {c : Char} (h : isAllowed c = true) :
    (if c = ' ' then '-' else c) = c := by
  rw [if_neg]
  intro hc
  subst hc
  exact absurd h (by decide)

/-- A map whose function fixes every member is the identity. -/
theorem map_id_of_mem {f : Char → Char} {l : List Char}
    (h : ∀ c ∈ l, f c = c) : l.map f = l := by
  induction l with
  | nil => rfl
  | cons a t ih =>
    simp only [List.map_cons, h a (by simp)]
    rw [ih (fun c hc => h c (by simp [hc]))]

/-- The head surviving a dropWhile fails the predicate. -/
theorem head?_dropWhile_false {p : Char → Bool} {l : List Char} {c : Char}
    (h : (l.dropWhile p).head? = some c) : p c = false := by
  induction l with
  | nil => simp at h
  | cons a t ih =>
    by_cases hp : p a
    · rw [List.dropWhile_cons_of_pos hp] at h
      exact ih h
    · rw [List.dropWhile_cons_of_neg hp] at h
      simp only [List.head?_cons, Option.some_inj] at h
      subst h
      simpa using hp

/-- Both-ends stripping yields a prefix of the front-stripped list. -/
theorem stripEnds_prefix_dropWhile (p : Char → Bool) (l : List Char) :
    stripEnds p l <+: l.dropWhile p := by
  unfold stripEnds
  have h : (l.dropWhile p).reverse.dropWhile p <:+ (l.dropWhile p).reverse :=
    List.dropWhile_suffix p
  have h2 := List.reverse_prefix.mpr h
  simpa using h2

/-- Both-ends stripping yields an infix of the original list. -/
theorem stripEnds_within (p : Char → Bool) (l : List Char) :
    stripEnds p l <:+: l :=
  (stripEnds_prefix_dropWhile p l).isInfix.trans (List.dropWhile_suffix p).isInfix

/-- Members of the stripped list were members of the original. -/
theorem mem_of_mem_stripEnds {p : Char → Bool} {l : List Char} {c : Char}
    (h : c ∈ stripEnds p l) : c ∈ l :=
  (stripEnds_within p l).sublist.subset h

/-- The head of the stripped list fails the predicate. -/
theorem stripEnds_head_false {p : Char → Bool} {l : List Char} {c : Char}
    (h : (stripEnds p l).head? = some c) : p c = false := by
  rcases stripEnds_prefix_dropWhile p l with ⟨t, ht⟩
  rcases hs : stripEnds p l with - | ⟨c', cs⟩
  · rw [hs] at h
    simp at h
  · rw [hs] at h
    simp only [List.head?_cons, Option.some_inj] at h
    rw [hs] at ht
    have hd : (l.dropWhile p).head? = some c' := by
      rw [← ht]
      rfl
    rw [h] at hd
    exact head?_dropWhile_false hd

/-- The last element of the stripped list fails the predicate. -/
theorem stripEnds_getLast_false {p : Char → Bool} {l : List Char} {c : Char}
    (h : (stripEnds p l).getLast? = some c) : p c = false := by
  unfold stripEnds at h
  rw [List.getLast?_reverse] at h
  exact head?_dropWhile_false h

/-- dropWhile is the identity when every member fails the predicate. -/
theorem dropWhile_eq_self_of_mem {p : Char → Bool} {l : List Char}
    (h : ∀ c ∈ l, p c = false) : l.dropWhile p = l := by
  cases l with
  | nil => rfl
  | cons a t => exact List.dropWhile_cons_of_neg (by simp [h a (by simp)])

/-- Both-ends stripping is the identity when every member fails the
predicate. -/
theorem stripEnds_eq_self_of_mem {p : Char → Bool} {l : List Char}
    (h : ∀ c ∈ l, p c = false) : stripEnds p l = l := by
  unfold stripEnds
  rw [dropWhile_eq_self_of_mem h]
  rw [dropWhile_eq_self_of_mem (fun c hc => h c (List.mem_reverse.mp hc))]
  exact List.reverse_reverse l

/-- Both-ends stripping is the identity when both ends fail the
predicate. -/
theorem stripEnds_eq_self_of_ends {p : Char → Bool} {l : List Char}
    (hh : ∀ c, l.head? = some c → p c = false)
    (hl : ∀ c, l.getLast? = some c → p c = false) : stripEnds p l = l := by
  unfold stripEnds
  have h1 : l.dropWhile p = l := by
    cases l with
    | nil => rfl
    | cons a t => exact List.dropWhile_cons_of_neg (by simp [hh a rfl])
  rw [h1]
  have h2 : l.reverse.dropWhile p = l.reverse := by
    rcases hr : l.reverse with - | ⟨a, t⟩
    · rfl
    · have hla : l.getLast? = some a := by
        rw [← List.head?_reverse, hr]
        rfl
      exact List.dropWhile_cons_of_neg (by simp [hl a hla])
  rw [h2]
  exact List.reverse_reverse l

/-- Collapsing hyphen runs keeps only characters of the original list. -/
theorem collapse_subset (l : List Char) : ∀ c ∈ collapseHyphens l, c ∈ l := by
  induction l using collapseHyphens.induct with
  | case1 => simp [collapseHyphens]
  | case2 c => simp [collapseHyphens]
  | case3 a b rest h ih =>
    intro c hc
    rw [collapseHyphens, if_pos h] at hc
    exact List.mem_cons_of_mem a (ih c hc)
  | case4 a b rest h ih =>
    intro c hc
    rw [collapseHyphens, if_neg h] at hc
    rcases List.mem_cons.mp hc with rfl | hc'
    · exact List.mem_cons_self c _
    · exact List.mem_cons_of_mem a (ih c hc')

/-- Collapsing hyphen runs keeps the head of a nonempty list. -/
theorem collapse_head (b : Char) (rest : List Char) :
    (collapseHyphens (b :: rest)).head? = some b := by
  induction rest generalizing b with
  | nil => rfl
  | cons r rs ih =>
    by_cases h : b = '-' ∧ r = '-'
    · rw [collapseHyphens, if_pos h]
      rw [ih r]
      rw [h.1, h.2]
    · rw [collapseHyphens, if_neg h]
      rfl

/-- After collapsing, no two hyphens are adjacent. -/
theorem collapse_noDouble (l : List Char) : NoDouble (collapseHyphens l) := by
  induction l using collapseHyphens.induct with
  | case1 => exact List.chain'_nil
  | case2 c => exact List.chain'_singleton c
  | case3 a b rest h ih =>
    rw [NoDouble, collapseHyphens, if_pos h]
    exact ih
  | case4 a b rest h ih =>
    rw [NoDouble, collapseHyphens, if_neg h]
    rw [List.chain'_cons']
    constructor
    · intro y hy
      rw [collapse_head b rest] at hy
      have hyb : b = y := by simpa using hy
      subst hyb
      exact h
    · exact ih

/-- Collapsing is the identity on hyphen-collapsed lists. -/
theorem collapse_eq_self {l : List Char} (h : NoDouble l) : collapseHyphens l = l := by
  induction l using collapseHyphens.induct with
  | case1 => rfl
  | case2 c => rfl
  | case3 a b rest hab ih =>
    exact absurd hab (List.chain'_cons.mp h).1
  | case4 a b rest hab ih =>
    rw [collapseHyphens, if_neg hab]
    rw [ih (List.chain'_cons.mp h).2]

/-- Stripping ends preserves hyphen-collapsedness. -/
theorem noDouble_stripEnds {p : Char → Bool} {l : List Char} (h : NoDouble l) :
    NoDouble (stripEnds p l) :=
  h.infix (stripEnds_within p l)

/-- Every character of the sanitized core is allowed. -/
theorem sanitizeCore_allowed (name : List Char) :
    ∀ c ∈ sanitizeCore name, isAllowed c = true := by
  intro c hc
  simp only [sanitizeCore] at hc
  have h1 := mem_of_mem_stripEnds hc
  have h2 := collapse_subset _ c h1
  exact (List.mem_filter.mp h2).2

/-- The sanitized core has no two adjacent hyphens. -/
theorem sanitizeCore_noDouble (name : List Char) : NoDouble (sanitizeCore name) := by
  simp only [sanitizeCore]
  exact noDouble_stripEnds (collapse_noDouble _)

/-- The sanitized core does not start with a hyphen. -/
theorem sanitizeCore_head_ne (name : List Char) :
    ∀ c, (sanitizeCore name).head? = some c → c ≠ '-' := by
  intro c hc
  simp only [sanitizeCore] at hc
  have := stripEnds_head_false hc
  simpa using this

/-- The sanitized core does not end with a hyphen. -/
theorem sanitizeCore_getLast_ne (name : List Char) :
    ∀ c, (sanitizeCore name).getLast? = some c → c ≠ '-' := by
  intro c hc
  simp only [sanitizeCore] at hc
  have := stripEnds_getLast_false hc
  simpa using this

/-- The sanitizing pipeline fixes any list that is already in sanitized
shape: allowed characters only, collapsed hyphens, no hyphen at either
end. -/
theorem sanitizeCore_fix (l : List Char) (hall : ∀ c ∈ l, isAllowed c = true)
    (hnd : NoDouble l) (hh : ∀ c, l.head? = some c → c ≠ '-')
    (hl : ∀ c, l.getLast? = some c → c ≠ '-') :
    sanitizeCore l = l := by
  simp only [sanitizeCore]
  rw [map_id_of_mem (fun c hc => pyLower_fix_of_allowed (hall c hc))]
  rw [stripEnds_eq_self_of_mem (fun c hc => isPySpace_false_of_allowed (hall c hc))]
  rw [map_id_of_mem (fun c hc => space_subst_fix_of_allowed (hall c hc))]
  rw [List.filter_eq_self.mpr hall]
  rw [collapse_eq_self hnd]
  exact stripEnds_eq_self_of_ends
    (fun c hc => by simpa using hh c hc)
    (fun c hc => by simpa using hl c hc)

/-- Prefixing `u-` to a hyphen-free-headed collapsed list stays
collapsed. -/
theorem noDouble_u_marked {core : List Char}
    (hh : ∀ c, core.head? = some c → c ≠ '-') (hnd : NoDouble core) :
    NoDouble ('u' :: '-' :: core) := by
  rw [NoDouble, List.chain'_cons]
  constructor
  · decide
  · rw [List.chain'_cons']
    constructor
    · intro y hy hcon
      exact hh y hy hcon.2
    · exact hnd

/-- The sanitizing pipeline fixes a `u-` prefixed sanitized core. -/
theorem sanitize_fix_u_prefixed (core : List Char) (hne : core ≠ [])
    (hall : ∀ c ∈ core, isAllowed c = true) (hnd : NoDouble core)
    (hh : ∀ c, core.head? = some c → c ≠ '-')
    (hl : ∀ c, core.getLast? = some c → c ≠ '-') :
    sanitizeCore ('u' :: '-' :: core) = 'u' :: '-' :: core := by
  apply sanitizeCore_fix
  · intro c hc
    rcases List.mem_cons.mp hc with rfl | hc1
    · decide
    · rcases List.mem_cons.mp hc1 with rfl | hc2
      · decide
      · exact hall c hc2
  · exact noDouble_u_marked hh hnd
  · intro c hc
    simp only [List.head?_cons, Option.some_inj] at hc
    subst hc
    decide
  · intro c hc
    rcases hcore : core with - | ⟨x, xs⟩
    · exact absurd hcore hne
    · rw [hcore] at hc
      rw [List.getLast?_cons_cons, List.getLast?_cons_cons] at hc
      apply hl
      rw [hcore]
      exact hc

/-- On a core with a leading letter, sanitize_name is the core itself. -/
theorem sanitize_name_eq_core (name : List Char)
    (hA : startsWithAlpha (sanitizeCore name) = true) :
    sanitize_name name = sanitizeCore name := by
  simp only [sanitize_name]
  rw [if_pos hA]

/-- Otherwise sanitize_name prefixes the literal marker `u-`. -/
theorem sanitize_name_eq_u_marked (name : List Char)
    (hA : ¬ startsWithAlpha (sanitizeCore name) = true) :
    sanitize_name name = 'u' :: '-' :: sanitizeCore name := by
  simp only [sanitize_name]
  rw [if_neg hA]

/-! ## Claim theorems: sanitize_name (C4, C5) -/

/-- C4 (amended): every sanitize_name output consists only of lowercase
letters, digits and hyphens, starts with a letter (hence has no leading
hyphen), and has no two consecutive hyphens; when the sanitized core is
nonempty it also has no trailing hyphen, but when the input has no letters
or digits at all (empty core) the output is exactly "u-", which does end
in a hyphen. -/
theorem C4_sanitize_name_output_shape :
    ∀ name : List Char,
      (∀ c ∈ sanitize_name name, isAllowed c = true) ∧
      startsWithAlpha (sanitize_name name) = true ∧
      NoDouble (sanitize_name name) ∧
      (sanitizeCore name ≠ [] →
        ∀ c, (sanitize_name name).getLast? = some c → c ≠ '-') ∧
      (sanitizeCore name = [] → sanitize_name name = ['u', '-']) := by
  intro name
  by_cases hA : startsWithAlpha (sanitizeCore name) = true
  · rw [sanitize_name_eq_core name hA]
    refine ⟨sanitizeCore_allowed name, hA, sanitizeCore_noDouble name, ?_, ?_⟩
    · intro _ c hc
      exact sanitizeCore_getLast_ne name c hc
    · intro hempty
      rw [hempty] at hA
      exact absurd hA (by decide)
  · rw [sanitize_name_eq_u_marked name hA]
    refine ⟨?_, ?_, ?_, ?_, ?_⟩
    · intro c hc
      rcases List.mem_cons.mp hc with rfl | hc1
      · decide
      · rcases List.mem_cons.mp hc1 with rfl | hc2
        · decide
        · exact sanitizeCore_allowed name c hc2
    · rfl
    · exact noDouble_u_marked (sanitizeCore_head_ne name) (sanitizeCore_noDouble name)
    · intro hne c hc
      rcases hcore : sanitizeCore name with - | ⟨x, xs⟩
      · exact absurd hcore hne
      · rw [hcore] at hc
        rw [List.getLast?_cons_cons, List.getLast?_cons_cons] at hc
        apply sanitizeCore_getLast_ne name
        rw [hcore]
        exact hc
    · intro hempty
      rw [hempty]

/-- C4 counterexample: the empty input sanitizes to "u-", whose last
character is a hyphen — the claim forbids a trailing hyphen for every
input. -/
theorem C4_counterexample_trailing_hyphen_on_empty :
    sanitize_name [] = ['u', '-'] ∧ (sanitize_name []).getLast? = some '-' := by
  decide

/-- C5 (amended): sanitize_name is idempotent on every input whose
sanitized core is nonempty (every input containing at least one letter or
digit); on empty-core inputs it is not, since sanitize_name of such an
input is "u-" and sanitize_name "u-" is "u". -/
theorem C5_sanitize_name_idempotent_on_nonempty_core :
    ∀ name : List Char, sanitizeCore name ≠ [] →
      sanitize_name (sanitize_name name) = sanitize_name name := by
  intro name hne
  by_cases hA : startsWithAlpha (sanitizeCore name) = true
  · rw [sanitize_name_eq_core name hA]
    have hfix : sanitizeCore (sanitizeCore name) = sanitizeCore name :=
      sanitizeCore_fix _ (sanitizeCore_allowed name) (sanitizeCore_noDouble name)
        (sanitizeCore_head_ne name) (sanitizeCore_getLast_ne name)
    simp only [sanitize_name]
    rw [hfix, if_pos hA]
  · rw [sanitize_name_eq_u_marked name hA]
    have hfix := sanitize_fix_u_prefixed (sanitizeCore name) hne
      (sanitizeCore_allowed name) (sanitizeCore_noDouble name)
      (sanitizeCore_head_ne name) (sanitizeCore_getLast_ne name)
    simp only [sanitize_name]
    rw [hfix]
    rw [if_pos (show startsWithAlpha ('u' :: '-' :: sanitizeCore name) = true from rfl)]

/-- C5 counterexample: on the empty input, applying sanitize_name twice
gives "u" while applying it once gives "u-". -/
theorem C5_counterexample_empty_input :
    sanitize_name (sanitize_name []) ≠ sanitize_name [] := by
  decide

/-- C5 witness: idempotence at the concrete input "ab". -/
theorem C5_witness_concrete_ab :
    sanitize_name (sanitize_name ['a', 'b']) = sanitize_name ['a', 'b'] :=
  C5_sanitize_name_idempotent_on_nonempty_core ['a', 'b'] (by decide)

/-- sanitize_name never returns the empty string (the `u-` marker is
prefixed whenever the core is empty). -/
theorem sanitize_name_ne_nil (name : List Char) : sanitize_name name ≠ [] := by
  simp only [sanitize_name]
  by_cases hA : startsWithAlpha (sanitizeCore name) = true
  · rw [if_pos hA]
    intro hc
    rw [hc] at hA
    exact absurd hA (by decide)
  · rw [if_neg hA]
    simp

/-! ## Claim theorem: build_api_name (C6) -/

/-- C6 (amended): whenever the configured maximum is at least
len(prefix) + len(suffix) + 3 (room for the two separating hyphens and one
base character), the full name built by build_api_name has length at most
the maximum, only the sanitized base is truncated (from its end: the
returned base is a prefix of the sanitized display name), the prefix and
suffix are kept intact, and both the full name and the truncated base are
returned; for smaller maxima the full name is
prefix-b-suffix (one base character) and exceeds the maximum. -/
theorem C6_build_api_name_respects_max_len :
    ∀ (d sf pr : List Char) (m : Nat), pr.length + sf.length + 3 ≤ m →
      (build_api_name d sf pr m).fst.length ≤ m ∧
      (build_api_name d sf pr m).fst
        = pr ++ '-' :: ((build_api_name d sf pr m).snd ++ '-' :: sf) ∧
      (∃ t, (build_api_name d sf pr m).snd ++ t = sanitize_name d) := by
  intro d sf pr m hm
  have hbne : sanitize_name d ≠ [] := sanitize_name_ne_nil d
  have hb1 : 1 ≤ (sanitize_name d).length := List.length_pos.mpr hbne
  simp only [build_api_name]
  by_cases hlen : (pr ++ '-' :: (sanitize_name d ++ '-' :: sf)).length > m
  · rw [if_pos hlen]
    have hlform : (pr ++ '-' :: (sanitize_name d ++ '-' :: sf)).length
        = pr.length + (sanitize_name d).length + sf.length + 2 := by
      simp [List.length_append]
      omega
    have hover : (pr ++ '-' :: (sanitize_name d ++ '-' :: sf)).length - m
        < (sanitize_name d).length := by omega
    rw [if_pos hover]
    refine ⟨?_, rfl, ?_⟩
    · simp only [List.length_append, List.length_cons, List.length_take]
      omega
    · exact ⟨(sanitize_name d).drop ((sanitize_name d).length
        - ((pr ++ '-' :: (sanitize_name d ++ '-' :: sf)).length - m)),
        List.take_append_drop _ _⟩
  · rw [if_neg hlen]
    exact ⟨Nat.le_of_not_lt hlen, rfl, ⟨[], List.append_nil _⟩⟩

/-- C6 counterexample: with prefix "ghc25", suffix "0315" and maximum 5,
the built name is "ghc25-h-0312"-shaped (length 12) and exceeds the
maximum — truncation cannot shorten below prefix-b-suffix. -/
theorem C6_counterexample_small_max_len :
    ¬((build_api_name "hello".toList "0315".toList "ghc25".toList 5).fst.length ≤ 5) := by
  decide

/-- C6 witness: the spec's own example, max_len 20. -/
theorem C6_witness_spec_example :
    (build_api_name "My Cool API".toList "0315".toList "ghc25".toList 20).fst.length ≤ 20 ∧
      (build_api_name "My Cool API".toList "0315".toList "ghc25".toList 20).fst
        = "ghc25".toList ++ '-' ::
          ((build_api_name "My Cool API".toList "0315".toList "ghc25".toList 20).snd
            ++ '-' :: "0315".toList) ∧
      (∃ t, (build_api_name "My Cool API".toList "0315".toList "ghc25".toList 20).snd ++ t
        = sanitize_name "My Cool API".toList) :=
  C6_build_api_name_respects_max_len "My Cool API".toList "0315".toList "ghc25".toList 20
    (by decide)
